import Mathlib

/-!
Shallow embedding of the flash_post blog backend's core subsystems:

* slug uniqueness resolvers (`BlogService._generate_unique_slug` in
  `src/api/src/blogs/service.py` and `TagService._generate_unique_slug` in
  `src/api/tag/service.py`);
* tag usage accounting over the blog/tag association table
  (`BlogRepository.create_with_tags`, `update_with_tags`, `delete_blog`,
  `increment_tag_usage_counts`, `decrement_tag_usage_counts` in
  `src/api/shared/blog_repo.py`);
* tag deletion (`TagService.delete_tag`, `TagRepository.delete` in
  `src/api/tag/service.py`, `src/api/shared/tag_repo.py`);
* comment creation/update/deletion and listing
  (`CommentService` in `src/api/comment/service.py`,
  `CommentRepository` in `src/api/shared/comment_repo.py`, the reply
  cascade from the `replies` relationship of
  `src/api/src/models/comment_model.py`);
* tag-name normalization (`BlogCreate.validate_tags` in
  `src/api/blogs/schema.py`, `BlogService._validate_and_get_tags` in
  `src/api/src/blogs/service.py`, `PaginatedResponse.create` in
  `src/api/src/shared/pagination.py`).

Machine identifiers (UUIDs in the source) are modelled as `Nat`; database
timestamps as `Nat`; the `usage_count` SQL integer column as `Int`, where
the flooring update `func.greatest(usage_count - 1, 0)` matters.
All definitions are computable and evaluate on concrete inputs.
-/

namespace FlashPost

abbrev BlogId := Nat
abbrev TagId := Nat
abbrev UserId := Nat
abbrev CommentId := Nat

/-! ## Definitions: slug uniqueness resolvers

Both resolvers receive a `taken` predicate abstracting
`slug_exists(slug, exclude_id=...)` with the excluded id already fixed,
the base slug produced by `generate_seo_optimized_slug`, and the random
token produced by `str(uuid.uuid4())[:8]` (randomness is an input here).
-/

inductive SlugErr where
  | slugConflict : SlugErr
  deriving DecidableEq, Repr

/-- Candidate `f"{base_slug}-{counter}"` tried in the loop
`for counter in range(1, 101)`. -/
def slugCandidate (base : String) (counter : Nat) : String :=
  base ++ "-" ++ toString counter

/-- The shared loop of both resolvers: try `base`, then `base-1` … `base-100`
in order, returning the first candidate not taken. -/
def firstFreeSlug (taken : String → Bool) (base : String) : Option String :=
  if taken base = false then some base
  else ((List.range' 1 100).find? fun k => !taken (slugCandidate base k)).map
    (slugCandidate base)

/-- `BlogService._generate_unique_slug` (src/api/src/blogs/service.py):
after the loop it builds `f"{base_slug}-{uuid4()[:8]}"`, re-checks it, and
raises `SlugConflictError` if even the fallback is taken. -/
def blogGenerateUniqueSlug (taken : String → Bool) (base tok : String) :
    Except SlugErr String :=
  match firstFreeSlug taken base with
  | some s => .ok s
  | none =>
    let fallback := base ++ "-" ++ tok
    if taken fallback = false then .ok fallback else .error .slugConflict

/-- `TagService._generate_unique_slug` (src/api/tag/service.py): after the
loop it returns `f"{base_slug}-{uuid4()[:8]}"` unconditionally — no final
existence check and no error path. -/
def tagGenerateUniqueSlug (taken : String → Bool) (base tok : String) : String :=
  match firstFreeSlug taken base with
  | some s => s
  | none => base ++ "-" ++ tok

/-! ## Definitions: tag usage accounting (`BlogRepository`)

State visible to the accounting claims: the blog rows, the `blog_tags`
association rows, and the `usage_count` column of every tag
(`usage : TagId → Int`; tags not present in the database have count 0 in
any reachable state).

The SQL integrity guards are modelled explicitly: a create whose blog id
already exists, or an association insert with duplicate tag ids, violates
a primary-key constraint and raises `IntegrityError`; the repository then
rolls the whole transaction back, so those branches return the input
state unchanged.  An `UPDATE ... WHERE id IN (tag_ids)` touches each
matching row exactly once no matter how often an id repeats in the list,
hence the membership-based counter updates.
-/

structure BlogStore where
  blogs : List BlogId
  assoc : List (BlogId × TagId)
  usage : TagId → Int

/-- `BlogRepository.increment_tag_usage_counts`:
`UPDATE tags SET usage_count = usage_count + 1 WHERE id IN tag_ids`
(no-op on the empty list). -/
def incrementTagUsageCounts (tagIds : List TagId) (usage : TagId → Int) :
    TagId → Int :=
  fun t => if t ∈ tagIds then usage t + 1 else usage t

/-- `BlogRepository.decrement_tag_usage_counts`:
`UPDATE tags SET usage_count = greatest(usage_count - 1, 0) WHERE id IN
tag_ids` — the decrement floors at zero. -/
def decrementTagUsageCounts (tagIds : List TagId) (usage : TagId → Int) :
    TagId → Int :=
  fun t => if t ∈ tagIds then max (usage t - 1) 0 else usage t

/-- `BlogRepository.get_blog_tag_ids`:
`SELECT tag_id FROM blog_tags WHERE blog_id = :blog_id`. -/
def getBlogTagIds (st : BlogStore) (b : BlogId) : List TagId :=
  (st.assoc.filter fun p => p.1 == b).map Prod.snd

/-- `BlogRepository.associate_tags`: insert one association row per tag id. -/
def associateTags (b : BlogId) (tagIds : List TagId)
    (assoc : List (BlogId × TagId)) : List (BlogId × TagId) :=
  assoc ++ tagIds.map fun t => (b, t)

/-- `BlogRepository.replace_blog_tags`: delete the blog's association rows,
then insert the new ones. -/
def replaceBlogTags (b : BlogId) (newTagIds : List TagId)
    (assoc : List (BlogId × TagId)) : List (BlogId × TagId) :=
  associateTags b newTagIds (assoc.filter fun p => !(p.1 == b))

/-- `BlogRepository.create_with_tags`: create the blog row, insert the
association rows, increment the tags' usage counts — or roll back wholly
on an integrity violation (duplicate blog id / duplicate association
rows). -/
def createWithTags (b : BlogId) (tagIds : List TagId) (st : BlogStore) :
    BlogStore :=
  if b ∈ st.blogs ∨ ¬ tagIds.Nodup then st
  else
    { blogs := b :: st.blogs
      assoc := associateTags b tagIds st.assoc
      usage := incrementTagUsageCounts tagIds st.usage }

/-- `BlogRepository.update_with_tags`: with `new_tag_ids = None` the tag
state is untouched (only scalar blog fields change); otherwise it reads
the current tag ids, replaces the association rows, decrements the old
ids and increments the new ones — in that order.  A missing blog returns
`None` without changes, and an integrity violation (duplicate new tag
ids) rolls the transaction back, both leaving the state unchanged. -/
def updateWithTags (b : BlogId) (newTagIds : Option (List TagId))
    (st : BlogStore) : BlogStore :=
  match newTagIds with
  | none => st
  | some L =>
    if b ∈ st.blogs then
      if L.Nodup then
        { blogs := st.blogs
          assoc := replaceBlogTags b L st.assoc
          usage := incrementTagUsageCounts L
            (decrementTagUsageCounts (getBlogTagIds st b) st.usage) }
      else st
    else st

/-- `BlogRepository.delete_blog`: delete the blog row (the cascade removes
its `blog_tags` rows) and decrement the usage counts of its tags. -/
def deleteBlog (b : BlogId) (st : BlogStore) : BlogStore :=
  if b ∈ st.blogs then
    { blogs := st.blogs.erase b
      assoc := st.assoc.filter fun p => !(p.1 == b)
      usage := decrementTagUsageCounts (getBlogTagIds st b) st.usage }
  else st

/-- Number of association rows carrying tag `t` — with no duplicate rows,
the number of posts whose current association set contains `t`. -/
def tagPostCount (st : BlogStore) (t : TagId) : Nat :=
  st.assoc.countP fun p => p.2 == t

/-- The spec's §3 invariant: every tag's stored `usage_count` equals the
count reconstructed from the association table. -/
def UsageInv (st : BlogStore) : Prop :=
  ∀ t, st.usage t = (tagPostCount st t : Int)

/-- Database well-formedness: the association table's composite primary
key (no duplicate rows) and its foreign key into the blog table. -/
def WFStore (st : BlogStore) : Prop :=
  st.assoc.Nodup ∧ ∀ p ∈ st.assoc, p.1 ∈ st.blogs

/-- A blog create/update/delete operation as routed through
`BlogRepository`. -/
inductive BlogOp where
  | create (b : BlogId) (tagIds : List TagId) : BlogOp
  | update (b : BlogId) (newTagIds : Option (List TagId)) : BlogOp
  | delete (b : BlogId) : BlogOp

def applyOp (st : BlogStore) : BlogOp → BlogStore
  | .create b tagIds => createWithTags b tagIds st
  | .update b newTagIds => updateWithTags b newTagIds st
  | .delete b => deleteBlog b st

def applyOps (st : BlogStore) (ops : List BlogOp) : BlogStore :=
  ops.foldl applyOp st

/-! ## Definitions: tag deletion (`TagService.delete_tag`) -/

structure TagRec where
  id : TagId
  name : String
  slug : String
  usage_count : Int
  deriving DecidableEq

structure UserRec where
  id : UserId
  is_active : Bool
  role : String
  deriving DecidableEq

inductive TagSvcErr where
  | unauthorized (detail : String) : TagSvcErr
  | tagNotFound (tagId : TagId) : TagSvcErr
  | tagInUse (count : Int) : TagSvcErr
  deriving DecidableEq

/-- `TagService._require_admin`: inactive accounts and non-admin roles are
rejected with `UnauthorizedError`. -/
def requireAdmin (u : UserRec) : Except TagSvcErr Unit :=
  if u.is_active = false then .error (.unauthorized "User account is inactive")
  else if u.role ≠ "admin" then .error (.unauthorized "Admin access required")
  else .ok ()

/-- `TagRepository.delete`: look the tag up by id; if present remove the
row and return `True`, else return `False`. -/
def tagRepoDelete (tagId : TagId) (tags : List TagRec) :
    Bool × List TagRec :=
  match tags.find? (fun t => t.id == tagId) with
  | none => (false, tags)
  | some _ => (true, tags.filter fun t => !(t.id == tagId))

/-- `TagService.delete_tag`: admin check, existence check
(`TagNotFoundError`), then the usage-count guard — a tag with
`usage_count > 0` raises `TagConstraintError` whose message reports the
current count, before any mutation; only then `TagRepository.delete`
runs.  The returned pair is (service outcome, resulting tag table). -/
def deleteTag (u : UserRec) (tagId : TagId) (tags : List TagRec) :
    Except TagSvcErr Bool × List TagRec :=
  match requireAdmin u with
  | .error e => (.error e, tags)
  | .ok _ =>
    match tags.find? (fun t => t.id == tagId) with
    | none => (.error (.tagNotFound tagId), tags)
    | some tag =>
      if 0 < tag.usage_count then (.error (.tagInUse tag.usage_count), tags)
      else
        let r := tagRepoDelete tagId tags
        (.ok r.1, r.2)

/-! ## Definitions: comments (`CommentService`, `CommentRepository`)

`CommentRec` carries the columns the claims mention; `created_at` is an
abstract timestamp.  Errors keep one constructor per distinct raise site
of the service code.
-/

structure BlogRec where
  id : BlogId
  author_id : UserId
  is_published : Bool
  deriving DecidableEq

structure CommentRec where
  id : CommentId
  content : String
  blog_id : BlogId
  author_id : UserId
  parent_id : Option CommentId
  is_edited : Bool
  created_at : Nat
  deriving DecidableEq

inductive CommentSvcErr where
  | blogNotFound (b : BlogId) : CommentSvcErr
  | onlyPublishedAcceptsComments : CommentSvcErr
  | integrityViolation : CommentSvcErr
  | commentNotFound (c : CommentId) : CommentSvcErr
  | notOwnerOrWrongBlog : CommentSvcErr
  | onlyPublishedCanBeCommented : CommentSvcErr
  deriving DecidableEq

/-- `BlogRepository.get_by_id`: filter by id and, unless `include_drafts`,
by `is_published` — an unpublished blog is invisible when
`include_drafts=False` (the default). -/
def blogGetById (blogs : List BlogRec) (b : BlogId)
    (include_drafts : Bool) : Option BlogRec :=
  blogs.find? fun x => x.id == b && (include_drafts || x.is_published)

/-- `CommentService.create_comment`: blog lookup with
`include_drafts=True`, publication check, then `CommentRepository.create`
inserts directly — the service never inspects `parent_id`; only the
database's foreign key rejects a nonexistent parent id (modelled as
`integrityViolation`).  A parent belonging to a different blog passes. -/
def createComment (newId : CommentId) (bid : BlogId) (aid : UserId)
    (content : String) (parent_id : Option CommentId) (now : Nat)
    (blogs : List BlogRec) (comments : List CommentRec) :
    Except CommentSvcErr (CommentRec × List CommentRec) :=
  match blogGetById blogs bid true with
  | none => .error (.blogNotFound bid)
  | some blog =>
    if blog.is_published = false then .error .onlyPublishedAcceptsComments
    else
      match parent_id with
      | some p =>
        if (comments.find? fun c => c.id == p).isNone then
          .error .integrityViolation
        else
          .ok (⟨newId, content, bid, aid, some p, false, now⟩,
            comments ++ [⟨newId, content, bid, aid, some p, false, now⟩])
      | none =>
        .ok (⟨newId, content, bid, aid, none, false, now⟩,
          comments ++ [⟨newId, content, bid, aid, none, false, now⟩])

/-- `CommentService.update_comment`: the blog lookup uses the DEFAULT
`include_drafts=False`, so a draft blog is already invisible here; the
subsequent `if not blog.is_published` raise of `UnauthorizedError` can
only see published blogs.  Then the comment lookup, the owner/blog check
(`UnauthorizedError` 409), and `CommentRepository.update` setting
`content` and `is_edited=True`. -/
def updateComment (bid : BlogId) (cid : CommentId) (uid : UserId)
    (content : String) (blogs : List BlogRec) (comments : List CommentRec) :
    Except CommentSvcErr (List CommentRec) :=
  match blogGetById blogs bid false with
  | none => .error (.blogNotFound bid)
  | some blog =>
    if blog.is_published = false then .error .onlyPublishedCanBeCommented
    else
      match comments.find? fun c => c.id == cid with
      | none => .error (.commentNotFound cid)
      | some cm =>
        if cm.author_id ≠ uid ∨ cm.blog_id ≠ blog.id then
          .error .notOwnerOrWrongBlog
        else
          .ok (comments.map fun c =>
            if c.id == cid && c.author_id == uid && c.blog_id == bid then
              { c with content := content, is_edited := true }
            else c)

/-- One pass over the comment rows in insertion order collecting the root
and every comment whose parent was already collected.  Comments are only
ever inserted with an already-existing parent (`create_reply` validates
it and the foreign key enforces it), so every row's parent precedes it
and this single pass collects exactly the root's transitive reply
subtree — the set removed by the ORM cascade
(`replies` relationship, `cascade="all, delete-orphan"`). -/
def subtreeStep (root : CommentId) (acc : List CommentId) (c : CommentRec) :
    List CommentId :=
  if c.id == root || (match c.parent_id with
      | some p => acc.contains p
      | none => false) then acc ++ [c.id] else acc

def subtreeIds (root : CommentId) (cs : List CommentRec) : List CommentId :=
  cs.foldl (subtreeStep root) []

/-- `CommentRepository.delete`: find the comment by id, author and blog;
if absent return `False`; otherwise the ORM delete cascades over the
whole reply subtree in the same transaction. -/
def commentRepoDelete (bid : BlogId) (cid : CommentId) (uid : UserId)
    (cs : List CommentRec) : Bool × List CommentRec :=
  match cs.find? (fun c =>
      c.id == cid && c.author_id == uid && c.blog_id == bid) with
  | none => (false, cs)
  | some _ => (true, cs.filter fun c => !((subtreeIds cid cs).contains c.id))

/-- `CommentRepository.get_by_id`: `SELECT ... WHERE id = comment_id`. -/
def commentGetById (cs : List CommentRec) (cid : CommentId) :
    Option CommentRec :=
  cs.find? fun c => c.id == cid

/-! ## Definitions: comment listing and pagination -/

structure Paginated (α : Type) where
  items : List α
  total : Nat
  page : Nat
  per_page : Nat
  total_pages : Nat
  has_next : Bool
  has_prev : Bool

/-- `PaginatedResponse.create` (src/api/src/shared/pagination.py):
`total_pages = ceil(total / per_page) if per_page > 0 else 0` (ceiling
division written in its integer form), `has_next = page < total_pages`,
`has_prev = page > 1`. -/
def paginatedCreate {α : Type} (items : List α)
    (total page per_page : Nat) : Paginated α :=
  let total_pages := if 0 < per_page then (total + per_page - 1) / per_page
    else 0
  { items := items
    total := total
    page := page
    per_page := per_page
    total_pages := total_pages
    has_next := decide (page < total_pages)
    has_prev := decide (1 < page) }

/-- Insertion step of the embedding of `ORDER BY created_at DESC`. -/
def insertCommentDesc (c : CommentRec) : List CommentRec → List CommentRec
  | [] => [c]
  | x :: xs =>
    if x.created_at ≤ c.created_at then c :: x :: xs
    else x :: insertCommentDesc c xs

/-- `ORDER BY created_at DESC` as an insertion sort. -/
def sortByCreatedDesc : List CommentRec → List CommentRec
  | [] => []
  | c :: cs => insertCommentDesc c (sortByCreatedDesc cs)

/-- `CommentRepository.list_by_blog`: the count and the page query both
filter ONLY on `blog_id` — there is no `parent_id IS NULL` filter — then
order newest-first, `OFFSET (page-1)*per_page LIMIT per_page`. -/
def listByBlog (cs : List CommentRec) (bid : BlogId)
    (page per_page : Nat) : Paginated CommentRec :=
  let matching := cs.filter fun c => c.blog_id == bid
  let items := ((sortByCreatedDesc matching).drop
    ((page - 1) * per_page)).take per_page
  paginatedCreate items matching.length page per_page

/-! ## Definitions: tag-name normalization

Python's `str.strip` and `str.lower` are modelled over the character
list (`pyStrip`, `pyLower`), since the tag names involved are ASCII.
-/

def pyIsSpace (c : Char) : Bool :=
  c == ' ' || c == '\t' || c == '\n' || c == '\r'

def pyStrip (s : String) : String :=
  ⟨((s.data.dropWhile pyIsSpace).reverse.dropWhile pyIsSpace).reverse⟩

def pyLowerChar (c : Char) : Char :=
  if 'A' ≤ c ∧ c ≤ 'Z' then Char.ofNat (c.toNat + 32) else c

def pyLower (s : String) : String :=
  ⟨s.data.map pyLowerChar⟩

/-- `BlogCreate.validate_tags` (src/api/blogs/schema.py): strip each
entry, drop empties, deduplicate EXACTLY (`set(...)` on the stripped
strings — case-SENSITIVE), and reject more than 10 remaining tags. -/
def validateTagsField (v : List String) : Except String (List String) :=
  let cleaned := ((v.map pyStrip).filter fun s => !(s == "")).dedup
  if 10 < cleaned.length then .error "Maximum 10 tags allowed"
  else .ok cleaned

/-- The service's normalization inside `_validate_and_get_tags`:
`set(name.strip().lower() for name in tag_names if name.strip())` —
lowercasing and case-insensitive dedup happen HERE, after the schema
validator's cap. -/
def normalizeTagNames (names : List String) : List String :=
  ((names.filter fun n => !(pyStrip n == "")).map fun n =>
    pyLower (pyStrip n)).dedup

/-- `TagRepository.get_by_names`: select tags whose lowercased name is
among the lowercased requested names. -/
def getTagsByNames (catalog : List TagRec) (names : List String) :
    List TagRec :=
  catalog.filter fun t => (names.map pyLower).contains (pyLower t.name)

/-- `BlogService._validate_and_get_tags`: normalize, resolve against the
admin-provisioned catalog, and fail listing every unresolved name
(`TagNotFoundError`) if any normalized name has no matching tag. -/
def validateAndGetTags (catalog : List TagRec) (tag_names : List String) :
    Except (List String) (List TagRec) :=
  if tag_names.isEmpty then .ok []
  else
    let unique_names := normalizeTagNames tag_names
    if unique_names.isEmpty then .ok []
    else
      let existing_tags := getTagsByNames catalog unique_names
      let existing_names := existing_tags.map fun t => pyLower t.name
      let missing := unique_names.filter fun n => !(existing_names.contains n)
      if missing.isEmpty then .ok existing_tags else .error missing

inductive TagValidationErr where
  | tooMany : TagValidationErr
  | notFound (missing : List String) : TagValidationErr
  deriving DecidableEq

/-- The full tag path of post creation: the pydantic field validator
first, then the service-side resolution. -/
def blogTagsPipeline (catalog : List TagRec) (v : List String) :
    Except TagValidationErr (List TagRec) :=
  match validateTagsField v with
  | .error _ => .error .tooMany
  | .ok cleaned =>
    match validateAndGetTags catalog cleaned with
    | .error missing => .error (.notFound missing)
    | .ok tags => .ok tags

/-! ## Theorems: slug resolvers (claims C3, C4) -/

theorem firstFreeSlug_not_taken {taken : String → Bool} {base s : String}
    (h : firstFreeSlug taken base = some s) : taken s = false := by
  unfold firstFreeSlug at h
  split at h
  · cases h; assumption
  · rcases Option.map_eq_some'.mp h with ⟨k, hk, rfl⟩
    simpa using List.find?_some hk

theorem blogGenerateUniqueSlug_ok_not_taken {taken : String → Bool}
    {base tok s : String}
    (h : blogGenerateUniqueSlug taken base tok = .ok s) : taken s = false := by
  unfold blogGenerateUniqueSlug at h
  cases hf : firstFreeSlug taken base with
  | some s' => rw [hf] at h; cases h; exact firstFreeSlug_not_taken hf
  | none =>
    rw [hf] at h
    simp only at h
    split at h
    · cases h; assumption
    · cases h

theorem firstFreeSlug_base6 (taken : String → Bool) (base : String)
    (h0 : taken base = true)
    (h1 : taken (slugCandidate base 1) = true)
    (h2 : taken (slugCandidate base 2) = true)
    (h3 : taken (slugCandidate base 3) = true)
    (h4 : taken (slugCandidate base 4) = true)
    (h5 : taken (slugCandidate base 5) = true)
    (h6 : taken (slugCandidate base 6) = false) :
    firstFreeSlug taken base = some (slugCandidate base 6) := by
  unfold firstFreeSlug
  rw [h0]
  simp only [Bool.true_eq_false, if_false]
  rw [show List.range' 1 100 = 1::2::3::4::5::6::List.range' 7 94 from rfl]
  simp [List.find?, h1, h2, h3, h4, h5, h6]

/-- C3 counterexample: with an existence predicate under which every slug
is taken (so the base and all 100 numeric suffixes collide), the tag
resolver returns its randomized fallback without any final check, and
that returned slug collides with an existing record — refuting "the
returned slug never collides with an existing record other than the
excluded one". -/
theorem tag_slug_fallback_may_collide :
    tagGenerateUniqueSlug (fun _ => true) "post" "deadbeef" = "post-deadbeef" ∧
      (fun _ => true) (tagGenerateUniqueSlug (fun _ => true) "post" "deadbeef")
        = true := by
  constructor <;> rfl

/-- C3 (amended): both resolvers try the base slug and then `base-1` …
`base-100` in order, returning the first free candidate; when `base`,
`base-1` … `base-5` are taken and `base-6` is free both return `base-6`;
the blog resolver never returns a slug on which the existence predicate
holds, while the tag resolver's unchecked randomized fallback may collide
when all 101 deterministic candidates are taken. -/
theorem slug_resolver_base6_no_collision (taken : String → Bool)
    (base tok : String)
    (h0 : taken base = true)
    (h1 : taken (slugCandidate base 1) = true)
    (h2 : taken (slugCandidate base 2) = true)
    (h3 : taken (slugCandidate base 3) = true)
    (h4 : taken (slugCandidate base 4) = true)
    (h5 : taken (slugCandidate base 5) = true)
    (h6 : taken (slugCandidate base 6) = false) :
    blogGenerateUniqueSlug taken base tok = .ok (slugCandidate base 6) ∧
      tagGenerateUniqueSlug taken base tok = slugCandidate base 6 ∧
      ∀ s, blogGenerateUniqueSlug taken base tok = .ok s → taken s = false := by
  have hf := firstFreeSlug_base6 taken base h0 h1 h2 h3 h4 h5 h6
  refine ⟨?_, ?_, fun s hs => blogGenerateUniqueSlug_ok_not_taken hs⟩
  · unfold blogGenerateUniqueSlug; rw [hf]
  · unfold tagGenerateUniqueSlug; rw [hf]

/-- Witness for `slug_resolver_base6_no_collision` at a concrete predicate
where exactly `p`, `p-1` … `p-5` are taken. -/
theorem slug_resolver_base6_witness :
    blogGenerateUniqueSlug
        (fun s => ["p", "p-1", "p-2", "p-3", "p-4", "p-5"].contains s) "p" "t"
      = .ok (slugCandidate "p" 6) ∧
    tagGenerateUniqueSlug
        (fun s => ["p", "p-1", "p-2", "p-3", "p-4", "p-5"].contains s) "p" "t"
      = slugCandidate "p" 6 ∧
    ∀ s, blogGenerateUniqueSlug
        (fun s => ["p", "p-1", "p-2", "p-3", "p-4", "p-5"].contains s) "p" "t"
      = .ok s →
      (fun s => ["p", "p-1", "p-2", "p-3", "p-4", "p-5"].contains s) s = false :=
  slug_resolver_base6_no_collision _ "p" "t" rfl rfl rfl rfl rfl rfl rfl

/-- C4 counterexample: when every candidate is taken the two resolvers
disagree — the blog resolver raises `SlugConflictError` while the tag
resolver returns the (colliding) randomized fallback. -/
theorem resolvers_diverge_when_exhausted :
    blogGenerateUniqueSlug (fun _ => true) "b" "t" = .error .slugConflict ∧
      tagGenerateUniqueSlug (fun _ => true) "b" "t" = "b-t" ∧
      Except.ok (tagGenerateUniqueSlug (fun _ => true) "b" "t")
        ≠ blogGenerateUniqueSlug (fun _ => true) "b" "t" := by
  refine ⟨rfl, rfl, ?_⟩
  intro h
  rw [show blogGenerateUniqueSlug (fun _ => true) "b" "t"
        = Except.error SlugErr.slugConflict from rfl] at h
  cases h

/-- C4 (amended): the two resolvers run the same deterministic search and
agree whenever the blog resolver succeeds; they differ exactly in the
exhausted case, where the blog resolver errors only because the
randomized fallback itself is taken while the tag resolver returns that
taken fallback unchecked. -/
theorem resolvers_agree_unless_fallback_taken (taken : String → Bool)
    (base tok : String) :
    (∀ s, blogGenerateUniqueSlug taken base tok = .ok s →
        tagGenerateUniqueSlug taken base tok = s) ∧
    (blogGenerateUniqueSlug taken base tok = .error .slugConflict →
        tagGenerateUniqueSlug taken base tok = base ++ "-" ++ tok ∧
          taken (base ++ "-" ++ tok) = true) := by
  constructor
  · intro s hs
    unfold blogGenerateUniqueSlug at hs
    unfold tagGenerateUniqueSlug
    cases hf : firstFreeSlug taken base with
    | some s2 => rw [hf] at hs; cases hs; rfl
    | none =>
      rw [hf] at hs
      simp only at hs
      split at hs
      · cases hs; rfl
      · cases hs
  · intro h
    unfold blogGenerateUniqueSlug at h
    unfold tagGenerateUniqueSlug
    cases hf : firstFreeSlug taken base with
    | some s2 => rw [hf] at h; cases h
    | none =>
      rw [hf] at h
      simp only at h
      split at h
      · cases h
      · rename_i hcol
        exact ⟨rfl, by simpa using hcol⟩

/-- Witness for `resolvers_agree_unless_fallback_taken`: with only `x`
taken, the blog resolver returns `x-1` and the tag resolver agrees. -/
theorem resolvers_agree_witness :
    tagGenerateUniqueSlug (fun s => s == "x") "x" "t" = "x-1" :=
  (resolvers_agree_unless_fallback_taken (fun s => s == "x") "x" "t").1
    "x-1" rfl

/-! ## Theorems: tag usage accounting (claims C1, C2) -/

theorem mem_getBlogTagIds {st : BlogStore} {b : BlogId} {t : TagId} :
    t ∈ getBlogTagIds st b ↔ (b, t) ∈ st.assoc := by
  unfold getBlogTagIds
  simp only [List.mem_map, List.mem_filter, beq_iff_eq]
  constructor
  · rintro ⟨⟨b', t'⟩, ⟨hm, rfl⟩, rfl⟩; exact hm
  · intro hm; exact ⟨(b, t), ⟨hm, rfl⟩, rfl⟩

theorem countP_split (l : List α) (p q : α → Bool) :
    l.countP p
      = l.countP (fun a => p a && q a) + l.countP (fun a => p a && !q a) := by
  induction l with
  | nil => simp
  | cons a l ih =>
    simp only [List.countP_cons]
    cases hp : p a <;> cases hq : q a <;> simp [hp, hq] <;> omega

theorem countP_eq_zero_of_unique {α : Type} (l : List α)
    (p : α → Bool) (a : α) (hp : ∀ x ∈ l, p x = true ↔ x = a)
    (ha : a ∉ l) : l.countP p = 0 := by
  rw [List.countP_eq_zero]
  intro x hx hpx
  exact ha (((hp x hx).mp hpx) ▸ hx)

theorem countP_eq_one_of_unique {α : Type} (l : List α) (hN : l.Nodup)
    (p : α → Bool) (a : α) (hp : ∀ x ∈ l, p x = true ↔ x = a)
    (ha : a ∈ l) : l.countP p = 1 := by
  induction l with
  | nil => cases ha
  | cons x xs ih =>
    rw [List.nodup_cons] at hN
    rw [List.countP_cons]
    rcases List.mem_cons.mp ha with rfl | hmem
    · have hx : p a = true := (hp a (by simp)).mpr rfl
      have hz : xs.countP p = 0 :=
        countP_eq_zero_of_unique xs p a (fun y hy => hp y (by simp [hy])) hN.1
      simp [hx, hz]
    · have hxa : x ≠ a := fun h => hN.1 (h ▸ hmem)
      have hx : p x = false := by
        cases hpx : p x
        · rfl
        · exact absurd ((hp x (by simp)).mp hpx) hxa
      have := ih hN.2 (fun y hy => hp y (by simp [hy])) hmem
      simp [hx, this]

theorem pair_pred_iff (b : BlogId) (t : TagId) (x : BlogId × TagId) :
    ((x.2 == t && x.1 == b) = true) ↔ x = (b, t) := by
  cases x with
  | mk xb xt =>
    simp only [Bool.and_eq_true, beq_iff_eq, Prod.mk.injEq]
    constructor
    · rintro ⟨rfl, rfl⟩; exact ⟨rfl, rfl⟩
    · rintro ⟨rfl, rfl⟩; exact ⟨rfl, rfl⟩

theorem countP_pair_mem (st : BlogStore) (hN : st.assoc.Nodup) {b : BlogId}
    {t : TagId} (h : (b, t) ∈ st.assoc) :
    (st.assoc.countP fun p => p.2 == t && p.1 == b) = 1 :=
  countP_eq_one_of_unique st.assoc hN _ (b, t)
    (fun x _ => pair_pred_iff b t x) h

theorem countP_pair_not_mem (st : BlogStore) {b : BlogId}
    {t : TagId} (h : (b, t) ∉ st.assoc) :
    (st.assoc.countP fun p => p.2 == t && p.1 == b) = 0 :=
  countP_eq_zero_of_unique st.assoc _ (b, t)
    (fun x _ => pair_pred_iff b t x) h

theorem countP_newRows (b : BlogId) (L : List TagId) (hL : L.Nodup)
    (t : TagId) :
    ((L.map fun x => (b, x)).countP fun p => p.2 == t)
      = if t ∈ L then 1 else 0 := by
  rw [List.countP_map]
  have he : ∀ x ∈ L, (((fun (p : BlogId × TagId) => p.2 == t)
      ∘ fun x => (b, x)) x = true) ↔ x = t := by
    intro x _; simp
  by_cases hm : t ∈ L
  · simp only [hm, if_true]
    exact countP_eq_one_of_unique L hL _ t he hm
  · simp only [hm, if_false]
    exact countP_eq_zero_of_unique L _ t he hm

theorem createWithTags_preserves (b : BlogId) (L : List TagId)
    (st : BlogStore) (hWF : WFStore st) (hInv : UsageInv st) :
    WFStore (createWithTags b L st) ∧ UsageInv (createWithTags b L st) := by
  unfold createWithTags
  split
  · exact ⟨hWF, hInv⟩
  · rename_i hg
    push_neg at hg
    obtain ⟨hb, hL⟩ := hg
    refine ⟨⟨?_, ?_⟩, ?_⟩
    · refine List.Nodup.append hWF.1
        (List.Nodup.map (fun x y h => congrArg Prod.snd h) hL) ?_
      · intro p hp hp2
        rcases List.mem_map.mp hp2 with ⟨t, _, rfl⟩
        exact hb (hWF.2 _ hp)
    · intro p hp
      rcases List.mem_append.mp hp with h | h
      · exact List.mem_cons_of_mem _ (hWF.2 p h)
      · rcases List.mem_map.mp h with ⟨t, _, rfl⟩
        exact List.mem_cons_self _ _
    · intro t
      show incrementTagUsageCounts L st.usage t = _
      have hA := hInv t
      unfold tagPostCount at hA ⊢
      unfold incrementTagUsageCounts
      simp only [associateTags]
      rw [List.countP_append, countP_newRows b L hL t]
      by_cases hm : t ∈ L <;> simp [hm, hA]

theorem updateWithTags_preserves (b : BlogId) (newL : Option (List TagId))
    (st : BlogStore) (hWF : WFStore st) (hInv : UsageInv st) :
    WFStore (updateWithTags b newL st) ∧ UsageInv (updateWithTags b newL st) := by
  cases newL with
  | none => exact ⟨hWF, hInv⟩
  | some L =>
    simp only [updateWithTags]
    split
    · rename_i hbmem
      split
      · rename_i hL
        refine ⟨⟨?_, ?_⟩, ?_⟩
        · simp only [replaceBlogTags, associateTags]
          refine List.Nodup.append (List.Nodup.filter _ hWF.1)
            (List.Nodup.map (fun x y h => congrArg Prod.snd h) hL) ?_
          intro p hp hp2
          rcases List.mem_map.mp hp2 with ⟨t, _, rfl⟩
          have := (List.mem_filter.mp hp).2
          simp at this
        · intro p hp
          simp only [replaceBlogTags, associateTags] at hp
          rcases List.mem_append.mp hp with h | h
          · exact hWF.2 p (List.mem_filter.mp h).1
          · rcases List.mem_map.mp h with ⟨t, _, rfl⟩
            exact hbmem
        · intro t
          show incrementTagUsageCounts L
            (decrementTagUsageCounts (getBlogTagIds st b) st.usage) t = _
          have hA := hInv t
          unfold tagPostCount at hA ⊢
          simp only [replaceBlogTags, associateTags]
          rw [List.countP_append, countP_newRows b L hL t, List.countP_filter]
          have hsplit := countP_split st.assoc (fun p => p.2 == t)
            (fun p => p.1 == b)
          unfold incrementTagUsageCounts decrementTagUsageCounts
          by_cases hcur : t ∈ getBlogTagIds st b
          · have hB := countP_pair_mem st hWF.1 (mem_getBlogTagIds.mp hcur)
            simp only [hcur, if_true]
            have hdec : max (st.usage t - 1) 0
                = ((st.assoc.countP fun a =>
                    a.2 == t && !(a.1 == b) : Nat) : Int) := by
              rw [hA]
              have hc : ((st.assoc.countP fun p => p.2 == t : Nat) : Int)
                  = ((st.assoc.countP fun a =>
                      a.2 == t && !(a.1 == b) : Nat) : Int) + 1 := by
                rw [hsplit, hB]; push_cast; ring
              rw [hc]
              simp
            rw [hdec]
            by_cases hm : t ∈ L <;> simp [hm]
          · have hB := countP_pair_not_mem st
              (fun hmem => hcur (mem_getBlogTagIds.mpr hmem))
            simp only [hcur, if_false]
            have husage : st.usage t
                = ((st.assoc.countP fun a =>
                    a.2 == t && !(a.1 == b) : Nat) : Int) := by
              rw [hA, hsplit, hB]; push_cast; ring
            rw [husage]
            by_cases hm : t ∈ L <;> simp [hm]
      · exact ⟨hWF, hInv⟩
    · exact ⟨hWF, hInv⟩

theorem deleteBlog_preserves (b : BlogId) (st : BlogStore)
    (hWF : WFStore st) (hInv : UsageInv st) :
    WFStore (deleteBlog b st) ∧ UsageInv (deleteBlog b st) := by
  unfold deleteBlog
  split
  · refine ⟨⟨List.Nodup.filter _ hWF.1, ?_⟩, ?_⟩
    · intro p hp
      have hm := List.mem_filter.mp hp
      have hne : p.1 ≠ b := by
        have := hm.2; simp at this; exact this
      exact (List.mem_erase_of_ne hne).mpr (hWF.2 p hm.1)
    · intro t
      show decrementTagUsageCounts (getBlogTagIds st b) st.usage t = _
      have hA := hInv t
      unfold tagPostCount at hA ⊢
      rw [List.countP_filter]
      have hsplit := countP_split st.assoc (fun p => p.2 == t)
        (fun p => p.1 == b)
      unfold decrementTagUsageCounts
      by_cases hcur : t ∈ getBlogTagIds st b
      · have hB := countP_pair_mem st hWF.1 (mem_getBlogTagIds.mp hcur)
        simp only [hcur, if_true]
        rw [hA]
        have hc : ((st.assoc.countP fun p => p.2 == t : Nat) : Int)
            = ((st.assoc.countP fun a =>
                a.2 == t && !(a.1 == b) : Nat) : Int) + 1 := by
          rw [hsplit, hB]; push_cast; ring
        rw [hc]
        simp
      · have hB := countP_pair_not_mem st
          (fun hmem => hcur (mem_getBlogTagIds.mpr hmem))
        simp only [hcur, if_false]
        rw [hA, hsplit, hB]
        push_cast; ring
  · exact ⟨hWF, hInv⟩

theorem applyOp_preserves (st : BlogStore) (op : BlogOp)
    (hWF : WFStore st) (hInv : UsageInv st) :
    WFStore (applyOp st op) ∧ UsageInv (applyOp st op) := by
  cases op with
  | create b tagIds => exact createWithTags_preserves b tagIds st hWF hInv
  | update b newTagIds => exact updateWithTags_preserves b newTagIds st hWF hInv
  | delete b => exact deleteBlog_preserves b st hWF hInv

theorem applyOps_preserves (ops : List BlogOp) :
    ∀ st : BlogStore, WFStore st → UsageInv st →
      WFStore (applyOps st ops) ∧ UsageInv (applyOps st ops) := by
  induction ops with
  | nil => exact fun _ hWF hInv => ⟨hWF, hInv⟩
  | cons op ops ih =>
    intro st hWF hInv
    obtain ⟨hWF1, hInv1⟩ := applyOp_preserves st op hWF hInv
    exact ih (applyOp st op) hWF1 hInv1

/-- C1: starting from a well-formed state in which every tag's
`usage_count` equals the number of posts associated with it, any sequence
of blog create/update/delete operations preserves the equality, and no
`usage_count` ever goes negative.  Since the claim quantifies over every
sequence, the state after each intermediate operation is covered by
instantiating `ops` with each prefix. -/
theorem usage_counts_consistent_after_ops (ops : List BlogOp)
    (st : BlogStore) (hWF : WFStore st) (hInv : UsageInv st) :
    UsageInv (applyOps st ops) ∧ ∀ t, 0 ≤ (applyOps st ops).usage t := by
  obtain ⟨_, hi⟩ := applyOps_preserves ops st hWF hInv
  exact ⟨hi, fun t => by rw [hi t]; exact Int.natCast_nonneg _⟩

/-- Witness for `usage_counts_consistent_after_ops`: the empty store, then
create blog 1 with tags 5 and 7, retag it to just 7, and delete it. -/
theorem usage_counts_consistent_witness :
    WFStore ⟨[], [], fun _ => 0⟩ ∧ UsageInv ⟨[], [], fun _ => 0⟩ ∧
      (UsageInv (applyOps ⟨[], [], fun _ => 0⟩
          [.create 1 [5, 7], .update 1 (some [7]), .delete 1]) ∧
        ∀ t, 0 ≤ (applyOps ⟨[], [], fun _ => 0⟩
          [.create 1 [5, 7], .update 1 (some [7]), .delete 1]).usage t) :=
  ⟨⟨List.nodup_nil, fun p hp => absurd hp (List.not_mem_nil p)⟩,
   fun _ => rfl,
   usage_counts_consistent_after_ops _ _
     ⟨List.nodup_nil, fun p hp => absurd hp (List.not_mem_nil p)⟩
     (fun _ => rfl)⟩

theorem updateWithTags_eq (b : BlogId) (L : List TagId) (st : BlogStore)
    (hb : b ∈ st.blogs) (hL : L.Nodup) :
    updateWithTags b (some L) st
      = { blogs := st.blogs
          assoc := replaceBlogTags b L st.assoc
          usage := incrementTagUsageCounts L
            (decrementTagUsageCounts (getBlogTagIds st b) st.usage) } := by
  simp only [updateWithTags]
  rw [if_pos hb, if_pos hL]

theorem getBlogTagIds_replace (blogs : List BlogId)
    (assoc : List (BlogId × TagId)) (usage : TagId → Int) (b : BlogId)
    (L : List TagId) :
    getBlogTagIds ⟨blogs, replaceBlogTags b L assoc, usage⟩ b = L := by
  unfold getBlogTagIds replaceBlogTags associateTags
  simp only
  rw [List.filter_append, List.filter_filter]
  have h1 : (assoc.filter fun a => a.1 == b && !(a.1 == b)) = [] := by
    rw [List.filter_eq_nil_iff]
    intro a _
    cases h : (a.1 == b) <;> simp [h]
  have h2 : ((L.map fun t => (b, t)).filter fun p => p.1 == b)
      = L.map fun t => (b, t) := by
    rw [List.filter_eq_self]
    intro a ha
    rcases List.mem_map.mp ha with ⟨t, _, rfl⟩
    simp
  rw [h1, h2, List.nil_append, List.map_map]
  exact List.map_id' L

/-- C2: replacing a post's tag set twice with the same duplicate-free list
of at most 10 resolved tag ids is idempotent.  After the first
application the post's association tag-id list is exactly the target, so
at the second application `added = target - current` and
`removed = current - target` are both empty, and the second application
leaves every tag's `usage_count` unchanged. -/
theorem set_post_tags_idempotent (b : BlogId) (L : List TagId)
    (st : BlogStore) (hb : b ∈ st.blogs) (hL : L.Nodup)
    (hlen : L.length ≤ 10) (hnn : ∀ t, 0 ≤ st.usage t) :
    getBlogTagIds (updateWithTags b (some L) st) b = L ∧
    (L.filter fun t =>
      !(getBlogTagIds (updateWithTags b (some L) st) b).contains t) = [] ∧
    ((getBlogTagIds (updateWithTags b (some L) st) b).filter fun t =>
      !L.contains t) = [] ∧
    (updateWithTags b (some L) (updateWithTags b (some L) st)).usage
      = (updateWithTags b (some L) st).usage := by
  have hst1 := updateWithTags_eq b L st hb hL
  have hcur1 : getBlogTagIds (updateWithTags b (some L) st) b = L := by
    rw [hst1]; exact getBlogTagIds_replace _ _ _ b L
  refine ⟨hcur1, ?_, ?_, ?_⟩
  · rw [hcur1, List.filter_eq_nil_iff]
    intro t ht
    simp [ht]
  · rw [hcur1, List.filter_eq_nil_iff]
    intro t ht
    simp [ht]
  · have hb1 : b ∈ (updateWithTags b (some L) st).blogs := by
      rw [hst1]; exact hb
    have hst2 := updateWithTags_eq b L (updateWithTags b (some L) st) hb1 hL
    rw [hst2, hcur1]
    funext t
    show incrementTagUsageCounts L
      (decrementTagUsageCounts L (updateWithTags b (some L) st).usage) t = _
    unfold incrementTagUsageCounts decrementTagUsageCounts
    by_cases hm : t ∈ L
    · simp only [hm, if_true]
      have hu1 : 1 ≤ (updateWithTags b (some L) st).usage t := by
        rw [hst1]
        show 1 ≤ incrementTagUsageCounts L
          (decrementTagUsageCounts (getBlogTagIds st b) st.usage) t
        unfold incrementTagUsageCounts decrementTagUsageCounts
        simp only [hm, if_true]
        by_cases hc : t ∈ getBlogTagIds st b
        · simp only [hc, if_true]
          have := le_max_right (st.usage t - 1) (0 : Int)
          omega
        · simp only [hc, if_false]
          have := hnn t
          omega
      have h0 : (0 : Int) ≤ (updateWithTags b (some L) st).usage t - 1 := by
        omega
      rw [max_eq_left h0]
      ring
    · simp only [hm, if_false]

/-- Witness for `set_post_tags_idempotent`: blog 1 retagged to ids 5 and 7
twice, starting from the empty association table. -/
theorem set_post_tags_idempotent_witness :
    getBlogTagIds (updateWithTags 1 (some [5, 7]) ⟨[1], [], fun _ => 0⟩) 1
        = [5, 7] ∧
      ([5, 7].filter fun t =>
        !(getBlogTagIds (updateWithTags 1 (some [5, 7])
          ⟨[1], [], fun _ => 0⟩) 1).contains t) = [] ∧
      ((getBlogTagIds (updateWithTags 1 (some [5, 7])
          ⟨[1], [], fun _ => 0⟩) 1).filter fun t =>
        !([5, 7].contains t)) = [] ∧
      (updateWithTags 1 (some [5, 7]) (updateWithTags 1 (some [5, 7])
          ⟨[1], [], fun _ => 0⟩)).usage
        = (updateWithTags 1 (some [5, 7]) ⟨[1], [], fun _ => 0⟩).usage :=
  set_post_tags_idempotent 1 [5, 7] ⟨[1], [], fun _ => 0⟩ (by decide)
    (by decide) (by decide) (fun _ => le_refl 0)

/-! ## Theorems: tag deletion (claim C5) -/

/-- C5: on an existing tag reached by an admin, `delete_tag` with
`usage_count > 0` fails with `TagInUse` reporting the current count and
performs no mutation (the tag table is returned unchanged, so the tag
still exists with the same name, slug and count); with `usage_count = 0`
it deletes the row; and deletion succeeds exactly when the count is
zero. -/
theorem delete_tag_in_use_no_mutation (u : UserRec) (tagId : TagId)
    (tags : List TagRec) (tag : TagRec)
    (hadmin : requireAdmin u = .ok ())
    (hfind : tags.find? (fun t => t.id == tagId) = some tag)
    (hcount : 0 ≤ tag.usage_count) :
    (0 < tag.usage_count →
      deleteTag u tagId tags = (.error (.tagInUse tag.usage_count), tags)) ∧
    (tag.usage_count = 0 →
      deleteTag u tagId tags
        = (.ok true, tags.filter fun t => !(t.id == tagId))) ∧
    ((deleteTag u tagId tags).1 = .ok true ↔ tag.usage_count = 0) := by
  have hd : deleteTag u tagId tags
      = if 0 < tag.usage_count then (.error (.tagInUse tag.usage_count), tags)
        else (.ok true, tags.filter fun t => !(t.id == tagId)) := by
    unfold deleteTag
    rw [hadmin, hfind]
    simp only
    split
    · rfl
    · unfold tagRepoDelete
      rw [hfind]
  refine ⟨?_, ?_, ?_⟩
  · intro hpos
    rw [hd, if_pos hpos]
  · intro hz
    rw [hd, if_neg (by omega)]
  · constructor
    · intro hok
      by_cases hpos : 0 < tag.usage_count
      · rw [hd, if_pos hpos] at hok
        cases hok
      · omega
    · intro hz
      rw [hd, if_neg (by omega)]

/-- Witness for `delete_tag_in_use_no_mutation`: an active admin deleting
tag 5 whose usage count is 3. -/
theorem delete_tag_witness :
    (0 < (3 : Int) →
      deleteTag ⟨1, true, "admin"⟩ 5 [⟨5, "go", "go", 3⟩]
        = (.error (.tagInUse 3), [⟨5, "go", "go", 3⟩])) ∧
    ((3 : Int) = 0 →
      deleteTag ⟨1, true, "admin"⟩ 5 [⟨5, "go", "go", 3⟩]
        = (.ok true, [(⟨5, "go", "go", 3⟩ : TagRec)].filter
            fun t => !(t.id == 5))) ∧
    ((deleteTag ⟨1, true, "admin"⟩ 5 [⟨5, "go", "go", 3⟩]).1 = .ok true
      ↔ (3 : Int) = 0) :=
  delete_tag_in_use_no_mutation ⟨1, true, "admin"⟩ 5 [⟨5, "go", "go", 3⟩]
    ⟨5, "go", "go", 3⟩ rfl rfl (by decide)

/-! ## Theorems: comment creation (claim C6) -/

/-- C6 counterexample: `create_comment` succeeds with a `parent_id` that
belongs to a DIFFERENT post (comment 10 lives on blog 2, the new comment
is created on blog 1 with parent 10) — where the claim requires a
`ParentNotFound` failure.  No parent validation exists in
`CommentService.create_comment`. -/
theorem create_comment_accepts_cross_post_parent :
    createComment 11 1 7 "hi" (some 10) 5 [⟨1, 9, true⟩, ⟨2, 9, true⟩]
        [⟨10, "c", 2, 8, none, false, 0⟩]
      = .ok (⟨11, "hi", 1, 7, some 10, false, 5⟩,
          [⟨10, "c", 2, 8, none, false, 0⟩,
           ⟨11, "hi", 1, 7, some 10, false, 5⟩]) ∧
    (⟨10, "c", 2, 8, none, false, 0⟩ : CommentRec).blog_id ≠ 1 := by
  refine ⟨by rfl, by decide⟩

/-- C6 (amended): `create_comment` fails with `BlogNotFound` when the post
is absent and with the 400 `CommentError` ("only published blog accepts
comments") when it exists unpublished; but it performs no parent
validation — on a published post it inserts the comment with whatever
`parent_id` was supplied as long as that id exists at all (the database
foreign key), even when the parent belongs to a different post; a
nonexistent parent id surfaces as a raw integrity error, never as
`ParentNotFound`.  Parent checks exist only in the separate
`create_reply` path. -/
theorem create_comment_checks (newId : CommentId) (bid : BlogId)
    (aid : UserId) (content : String) (pid : Option CommentId) (now : Nat)
    (blogs : List BlogRec) (comments : List CommentRec) :
    (blogGetById blogs bid true = none →
      createComment newId bid aid content pid now blogs comments
        = .error (.blogNotFound bid)) ∧
    (∀ blog, blogGetById blogs bid true = some blog →
      blog.is_published = false →
      createComment newId bid aid content pid now blogs comments
        = .error .onlyPublishedAcceptsComments) ∧
    (∀ blog p parent, blogGetById blogs bid true = some blog →
      blog.is_published = true → pid = some p →
      comments.find? (fun c => c.id == p) = some parent →
      createComment newId bid aid content pid now blogs comments
        = .ok (⟨newId, content, bid, aid, some p, false, now⟩,
            comments ++ [⟨newId, content, bid, aid, some p, false, now⟩])) := by
  refine ⟨?_, ?_, ?_⟩
  · intro h
    unfold createComment
    rw [h]
  · intro blog hb hpub
    unfold createComment
    rw [hb]
    simp [hpub]
  · intro blog p parent hb hpub hp hparent
    unfold createComment
    rw [hb, hp]
    simp only [hpub]
    rw [if_neg (by simp)]
    rw [if_neg (by rw [hparent]; simp)]

/-- Witness for `create_comment_checks`: a published blog and an existing
parent comment; the creation succeeds with no further checks. -/
theorem create_comment_checks_witness :
    createComment 11 1 7 "hi" (some 10) 5 [⟨1, 9, true⟩]
        [⟨10, "c", 1, 8, none, false, 0⟩]
      = .ok (⟨11, "hi", 1, 7, some 10, false, 5⟩,
          [⟨10, "c", 1, 8, none, false, 0⟩,
           ⟨11, "hi", 1, 7, some 10, false, 5⟩]) :=
  (create_comment_checks 11 1 7 "hi" (some 10) 5 [⟨1, 9, true⟩]
      [⟨10, "c", 1, 8, none, false, 0⟩]).2.2
    ⟨1, 9, true⟩ 10 ⟨10, "c", 1, 8, none, false, 0⟩ rfl rfl rfl rfl

/-! ## Theorems: cascading comment deletion (claim C7) -/

theorem subtree_foldl_extra (root : CommentId) (cs : List CommentRec) :
    ∀ acc : List CommentId, ∃ extra,
      cs.foldl (subtreeStep root) acc = acc ++ extra ∧
        extra.Sublist (cs.map fun c => c.id) := by
  induction cs with
  | nil => exact fun acc => ⟨[], by simp⟩
  | cons c cs ih =>
    intro acc
    rw [List.foldl_cons]
    by_cases hc : (c.id == root || (match c.parent_id with
        | some p => acc.contains p
        | none => false)) = true
    · rw [show subtreeStep root acc c = acc ++ [c.id] from by
        unfold subtreeStep; rw [if_pos hc]]
      obtain ⟨extra, he, hs⟩ := ih (acc ++ [c.id])
      exact ⟨c.id :: extra, by rw [he]; simp, List.Sublist.cons₂ c.id hs⟩
    · rw [show subtreeStep root acc c = acc from by
        unfold subtreeStep; rw [if_neg hc]]
      obtain ⟨extra, he, hs⟩ := ih acc
      exact ⟨extra, he, List.Sublist.cons c.id hs⟩

theorem subtreeIds_sublist (root : CommentId) (cs : List CommentRec) :
    (subtreeIds root cs).Sublist (cs.map fun c => c.id) := by
  obtain ⟨extra, he, hs⟩ := subtree_foldl_extra root cs []
  unfold subtreeIds
  rw [he, List.nil_append]
  exact hs

theorem subtree_foldl_mono (root : CommentId) (cs : List CommentRec)
    {a : CommentId} :
    ∀ acc : List CommentId, a ∈ acc →
      a ∈ cs.foldl (subtreeStep root) acc := by
  intro acc ha
  obtain ⟨extra, he, _⟩ := subtree_foldl_extra root cs acc
  rw [he]
  exact List.mem_append_left _ ha

theorem root_mem_subtree_aux (root : CommentId) (cs : List CommentRec)
    {c0 : CommentRec} (hc0 : c0 ∈ cs) (hid : c0.id = root) :
    ∀ acc : List CommentId, root ∈ cs.foldl (subtreeStep root) acc := by
  induction cs with
  | nil => cases hc0
  | cons c cs ih =>
    intro acc
    rw [List.foldl_cons]
    rcases List.mem_cons.mp hc0 with rfl | hmem
    · refine subtree_foldl_mono root cs _ ?_
      have hstep : subtreeStep root acc c0 = acc ++ [c0.id] := by
        unfold subtreeStep
        rw [if_pos]
        simp [hid]
      rw [hstep, hid]
      exact List.mem_append_right _ (by simp)
    · exact ih hmem _

theorem root_mem_subtreeIds (root : CommentId) (cs : List CommentRec)
    {c0 : CommentRec} (hc0 : c0 ∈ cs) (hid : c0.id = root) :
    root ∈ subtreeIds root cs :=
  root_mem_subtree_aux root cs hc0 hid []

theorem length_filter_partition (l : List α) (p : α → Bool) :
    (l.filter p).length + (l.filter fun a => !(p a)).length = l.length := by
  induction l with
  | nil => simp
  | cons a l ih =>
    cases h : p a <;> simp [List.filter_cons, h] <;> omega

theorem length_filter_mem_of_nodup (ids removed : List CommentId)
    (hN : ids.Nodup) (hR : removed.Nodup)
    (hsub : ∀ a ∈ removed, a ∈ ids) :
    (ids.filter fun i => removed.contains i).length = removed.length := by
  have hfN : (ids.filter fun i => removed.contains i).Nodup :=
    List.Nodup.filter _ hN
  have hiff : ∀ x, x ∈ (ids.filter fun i => removed.contains i)
      ↔ x ∈ removed := by
    intro x
    rw [List.mem_filter]
    constructor
    · rintro ⟨_, hx⟩
      simpa using hx
    · intro hx
      exact ⟨hsub x hx, by simpa using hx⟩
  have hfin : (ids.filter fun i => removed.contains i).toFinset
      = removed.toFinset := by
    apply Finset.ext
    intro x
    simp only [List.mem_toFinset]
    exact hiff x
  have h1 := List.toFinset_card_of_nodup hfN
  have h2 := List.toFinset_card_of_nodup hR
  rw [← h1, ← h2, hfin]

/-- C7: deleting a comment removes exactly the reply subtree rooted at it
— with `N` descendant replies that is `N + 1` rows, since the removed id
set `subtreeIds cid cs` is duplicate-free and contains the comment
itself; afterwards `get_comment` on any removed id finds nothing, and
every comment outside the subtree survives. -/
theorem delete_comment_cascade (bid : BlogId) (cid : CommentId)
    (uid : UserId) (cs : List CommentRec) (cfound : CommentRec)
    (hids : (cs.map fun c => c.id).Nodup)
    (hfound : cs.find? (fun c =>
      c.id == cid && c.author_id == uid && c.blog_id == bid) = some cfound) :
    (commentRepoDelete bid cid uid cs).1 = true ∧
    (subtreeIds cid cs).Nodup ∧
    cid ∈ subtreeIds cid cs ∧
    (commentRepoDelete bid cid uid cs).2.length
        + (subtreeIds cid cs).length = cs.length ∧
    (∀ i ∈ subtreeIds cid cs,
      commentGetById (commentRepoDelete bid cid uid cs).2 i = none) ∧
    (∀ c ∈ cs, c.id ∉ subtreeIds cid cs →
      c ∈ (commentRepoDelete bid cid uid cs).2) := by
  have hres : commentRepoDelete bid cid uid cs
      = (true, cs.filter fun c => !((subtreeIds cid cs).contains c.id)) := by
    unfold commentRepoDelete
    rw [hfound]
  have hRN : (subtreeIds cid cs).Nodup :=
    (subtreeIds_sublist cid cs).nodup hids
  have hcf_mem : cfound ∈ cs := List.mem_of_find?_eq_some hfound
  have hcf_id : cfound.id = cid := by
    have := List.find?_some hfound
    simp only [Bool.and_eq_true, beq_iff_eq] at this
    exact this.1.1
  have hcid_mem : cid ∈ subtreeIds cid cs :=
    root_mem_subtreeIds cid cs hcf_mem hcf_id
  have hsubset : ∀ a ∈ subtreeIds cid cs, a ∈ cs.map fun c => c.id :=
    fun a ha => (subtreeIds_sublist cid cs).subset ha
  refine ⟨by rw [hres], hRN, hcid_mem, ?_, ?_, ?_⟩
  · rw [hres]
    have hpart := length_filter_partition cs
      (fun c => (subtreeIds cid cs).contains c.id)
    have hlen1 : (cs.filter fun c =>
        (subtreeIds cid cs).contains c.id).length
        = (subtreeIds cid cs).length := by
      have hmap : (cs.filter fun c =>
          (subtreeIds cid cs).contains c.id).length
          = ((cs.map fun c => c.id).filter fun i =>
              (subtreeIds cid cs).contains i).length := by
        rw [← List.countP_eq_length_filter, ← List.countP_eq_length_filter,
          List.countP_map]
        rfl
      rw [hmap]
      exact length_filter_mem_of_nodup _ _ hids hRN hsubset
    simp only
    omega
  · intro i hi
    rw [hres]
    unfold commentGetById
    rw [List.find?_eq_none]
    intro c hc
    have hcne : c.id ∉ subtreeIds cid cs := by
      have := (List.mem_filter.mp hc).2
      simpa using this
    simp only [beq_iff_eq]
    intro hci
    exact hcne (hci ▸ hi)
  · intro c hc hnot
    rw [hres]
    simp only
    exact List.mem_filter.mpr ⟨hc, by simpa using hnot⟩

/-- Witness for `delete_comment_cascade`: comment 10 with reply 11 and
reply-to-reply 12, plus an unrelated comment 20; deleting 10 removes rows
10, 11, 12 (N = 2 descendants, 3 = N + 1 rows) and leaves 20. -/
theorem delete_comment_cascade_witness :
    (commentRepoDelete 1 10 7 [⟨10, "c", 1, 7, none, false, 0⟩,
        ⟨11, "r", 1, 8, some 10, false, 1⟩,
        ⟨12, "r2", 1, 9, some 11, false, 2⟩,
        ⟨20, "other", 1, 7, none, false, 3⟩]).1 = true ∧
    (subtreeIds 10 [⟨10, "c", 1, 7, none, false, 0⟩,
        ⟨11, "r", 1, 8, some 10, false, 1⟩,
        ⟨12, "r2", 1, 9, some 11, false, 2⟩,
        ⟨20, "other", 1, 7, none, false, 3⟩]).Nodup ∧
    10 ∈ subtreeIds 10 [⟨10, "c", 1, 7, none, false, 0⟩,
        ⟨11, "r", 1, 8, some 10, false, 1⟩,
        ⟨12, "r2", 1, 9, some 11, false, 2⟩,
        ⟨20, "other", 1, 7, none, false, 3⟩] ∧
    (commentRepoDelete 1 10 7 [⟨10, "c", 1, 7, none, false, 0⟩,
        ⟨11, "r", 1, 8, some 10, false, 1⟩,
        ⟨12, "r2", 1, 9, some 11, false, 2⟩,
        ⟨20, "other", 1, 7, none, false, 3⟩]).2.length
      + (subtreeIds 10 [⟨10, "c", 1, 7, none, false, 0⟩,
        ⟨11, "r", 1, 8, some 10, false, 1⟩,
        ⟨12, "r2", 1, 9, some 11, false, 2⟩,
        ⟨20, "other", 1, 7, none, false, 3⟩]).length
      = ([(⟨10, "c", 1, 7, none, false, 0⟩ : CommentRec),
        ⟨11, "r", 1, 8, some 10, false, 1⟩,
        ⟨12, "r2", 1, 9, some 11, false, 2⟩,
        ⟨20, "other", 1, 7, none, false, 3⟩] : List CommentRec).length ∧
    (∀ i ∈ subtreeIds 10 [⟨10, "c", 1, 7, none, false, 0⟩,
        ⟨11, "r", 1, 8, some 10, false, 1⟩,
        ⟨12, "r2", 1, 9, some 11, false, 2⟩,
        ⟨20, "other", 1, 7, none, false, 3⟩],
      commentGetById (commentRepoDelete 1 10 7
        [⟨10, "c", 1, 7, none, false, 0⟩,
        ⟨11, "r", 1, 8, some 10, false, 1⟩,
        ⟨12, "r2", 1, 9, some 11, false, 2⟩,
        ⟨20, "other", 1, 7, none, false, 3⟩]).2 i = none) ∧
    (∀ c ∈ [(⟨10, "c", 1, 7, none, false, 0⟩ : CommentRec),
        ⟨11, "r", 1, 8, some 10, false, 1⟩,
        ⟨12, "r2", 1, 9, some 11, false, 2⟩,
        ⟨20, "other", 1, 7, none, false, 3⟩],
      c.id ∉ subtreeIds 10 [⟨10, "c", 1, 7, none, false, 0⟩,
        ⟨11, "r", 1, 8, some 10, false, 1⟩,
        ⟨12, "r2", 1, 9, some 11, false, 2⟩,
        ⟨20, "other", 1, 7, none, false, 3⟩] →
      c ∈ (commentRepoDelete 1 10 7 [⟨10, "c", 1, 7, none, false, 0⟩,
        ⟨11, "r", 1, 8, some 10, false, 1⟩,
        ⟨12, "r2", 1, 9, some 11, false, 2⟩,
        ⟨20, "other", 1, 7, none, false, 3⟩]).2) :=
  delete_comment_cascade 1 10 7 _ ⟨10, "c", 1, 7, none, false, 0⟩
    (by decide) (by decide)

/-! ## Theorems: comment update on unpublished blogs (claim C10) -/

/-- C10 counterexample: the blog exists but is unpublished and the caller
is the comment's author, yet `update_comment` fails with `BlogNotFound`
(404), not with the claimed `Unauthorized` error — the draft is invisible
to the blog lookup. -/
theorem update_comment_unpublished_counterexample :
    updateComment 1 10 7 "x" [⟨1, 9, false⟩]
        [⟨10, "c", 1, 7, none, false, 0⟩]
      = .error (.blogNotFound 1) ∧
    updateComment 1 10 7 "x" [⟨1, 9, false⟩]
        [⟨10, "c", 1, 7, none, false, 0⟩]
      ≠ .error .onlyPublishedCanBeCommented := by
  refine ⟨by rfl, ?_⟩
  intro h
  rw [show updateComment 1 10 7 "x" [⟨1, 9, false⟩]
      [⟨10, "c", 1, 7, none, false, 0⟩]
      = .error (.blogNotFound 1) from rfl] at h
  cases h

/-- C10 (amended): editing a comment is indeed impossible while its blog
is unpublished, but the failure is `BlogNotFound`: the lookup runs with
`include_drafts=False`, so a draft never reaches the explicit
`UnauthorizedError` ("only published blog can be comment on") branch —
that branch is unreachable for every input. -/
theorem update_comment_unpublished_is_not_found (bid : BlogId)
    (cid : CommentId) (uid : UserId) (content : String)
    (blogs : List BlogRec) (comments : List CommentRec) :
    (updateComment bid cid uid content blogs comments
        ≠ .error .onlyPublishedCanBeCommented) ∧
    ((∀ blog ∈ blogs, blog.id = bid → blog.is_published = false) →
      updateComment bid cid uid content blogs comments
        = .error (.blogNotFound bid)) := by
  constructor
  · intro h
    unfold updateComment at h
    cases hfind : blogGetById blogs bid false with
    | none => rw [hfind] at h; cases h
    | some blog =>
      rw [hfind] at h
      simp only at h
      have hpub : blog.is_published = true := by
        have := List.find?_some hfind
        simp only [Bool.and_eq_true, Bool.or_eq_true, beq_iff_eq] at this
        rcases this.2 with hc | hc
        · cases hc
        · exact hc
      rw [if_neg (by rw [hpub]; simp)] at h
      cases hcm : comments.find? fun c => c.id == cid with
      | none => rw [hcm] at h; cases h
      | some cm =>
        rw [hcm] at h
        simp only at h
        split at h
        · cases h
        · cases h
  · intro hall
    have hnone : blogGetById blogs bid false = none := by
      rw [blogGetById, List.find?_eq_none]
      intro x hx
      simp only [Bool.and_eq_true, Bool.or_eq_true, beq_iff_eq]
      rintro ⟨rfl, hc | hpub⟩
      · cases hc
      · rw [hall x hx rfl] at hpub
        cases hpub
    unfold updateComment
    rw [hnone]

/-- Witness for `update_comment_unpublished_is_not_found` at the concrete
draft blog 1 with a comment authored by the caller. -/
theorem update_comment_unpublished_witness :
    (updateComment 1 10 7 "x" [⟨1, 9, false⟩]
        [⟨10, "c", 1, 7, none, false, 0⟩]
      ≠ .error .onlyPublishedCanBeCommented) ∧
    ((∀ blog ∈ [(⟨1, 9, false⟩ : BlogRec)], blog.id = 1 →
        blog.is_published = false) →
      updateComment 1 10 7 "x" [⟨1, 9, false⟩]
          [⟨10, "c", 1, 7, none, false, 0⟩]
        = .error (.blogNotFound 1)) :=
  update_comment_unpublished_is_not_found 1 10 7 "x" [⟨1, 9, false⟩]
    [⟨10, "c", 1, 7, none, false, 0⟩]

/-! ## Theorems: comment listing and pagination (claim C8) -/

theorem insertCommentDesc_perm (c : CommentRec) (l : List CommentRec) :
    (insertCommentDesc c l).Perm (c :: l) := by
  induction l with
  | nil => exact List.Perm.refl _
  | cons x xs ih =>
    unfold insertCommentDesc
    split
    · exact List.Perm.refl _
    · exact ((ih.cons x).trans (List.Perm.swap c x xs))

theorem sortByCreatedDesc_perm (l : List CommentRec) :
    (sortByCreatedDesc l).Perm l := by
  induction l with
  | nil => exact List.Perm.refl _
  | cons c cs ih =>
    exact (insertCommentDesc_perm c (sortByCreatedDesc cs)).trans (ih.cons c)

theorem insertCommentDesc_pairwise (c : CommentRec) (l : List CommentRec)
    (h : l.Pairwise fun a b => b.created_at ≤ a.created_at) :
    (insertCommentDesc c l).Pairwise
      fun a b => b.created_at ≤ a.created_at := by
  induction l with
  | nil => simp [insertCommentDesc]
  | cons x xs ih =>
    rw [List.pairwise_cons] at h
    unfold insertCommentDesc
    split
    · rename_i hle
      rw [List.pairwise_cons]
      refine ⟨?_, List.pairwise_cons.mpr h⟩
      intro a ha
      rcases List.mem_cons.mp ha with rfl | hmem
      · exact hle
      · exact le_trans (h.1 a hmem) hle
    · rename_i hgt
      push_neg at hgt
      rw [List.pairwise_cons]
      constructor
      · intro a ha
        have hmem := (insertCommentDesc_perm c xs).mem_iff.mp ha
        rcases List.mem_cons.mp hmem with rfl | hmem2
        · exact le_of_lt hgt
        · exact h.1 a hmem2
      · exact ih h.2

theorem sortByCreatedDesc_pairwise (l : List CommentRec) :
    (sortByCreatedDesc l).Pairwise
      fun a b => b.created_at ≤ a.created_at := by
  induction l with
  | nil => simp [sortByCreatedDesc]
  | cons c cs ih => exact insertCommentDesc_pairwise c _ ih

/-- C8 counterexample: `list_comments` on a blog with one top-level
comment (id 10) and one reply (id 11) returns BOTH — the reply appears in
the page and is counted in `total`, refuting "a page containing only the
post's top-level comments". -/
theorem list_comments_page_includes_reply :
    (listByBlog [⟨10, "c", 1, 7, none, false, 5⟩,
        ⟨11, "r", 1, 7, some 10, false, 6⟩] 1 1 20).items
      = [⟨11, "r", 1, 7, some 10, false, 6⟩,
         ⟨10, "c", 1, 7, none, false, 5⟩] ∧
    (⟨11, "r", 1, 7, some 10, false, 6⟩ : CommentRec).parent_id = some 10 ∧
    (listByBlog [⟨10, "c", 1, 7, none, false, 5⟩,
        ⟨11, "r", 1, 7, some 10, false, 6⟩] 1 1 20).total = 2 := by
  refine ⟨by rfl, by rfl, by rfl⟩

/-- C8 (amended): `list_comments` pages over ALL of the post's comments —
top-level ones and replies alike, with no parent filter — ordered
newest-first by creation time; the page is the `(page-1)*per_page` offset
slice of length at most `per_page`; `total` counts every comment of the
blog; `total_pages` is the ceiling of `total / per_page` (characterized
as the least `m` with `total ≤ m * per_page`); `has_next = page <
total_pages`; `has_prev = page > 1`. -/
theorem list_comments_returns_all_blog_comments (cs : List CommentRec)
    (bid : BlogId) (page per_page : Nat) (hpp : 0 < per_page) :
    (listByBlog cs bid page per_page).total
        = (cs.filter fun c => c.blog_id == bid).length ∧
    (∀ c ∈ (listByBlog cs bid page per_page).items, c.blog_id = bid) ∧
    (listByBlog cs bid page per_page).items.length ≤ per_page ∧
    (listByBlog cs bid page per_page).items.Pairwise
      (fun a b => b.created_at ≤ a.created_at) ∧
    (listByBlog cs bid page per_page).items
      = ((sortByCreatedDesc (cs.filter fun c => c.blog_id == bid)).drop
          ((page - 1) * per_page)).take per_page ∧
    (∀ m, (listByBlog cs bid page per_page).total ≤ m * per_page ↔
      (listByBlog cs bid page per_page).total_pages ≤ m) ∧
    (listByBlog cs bid page per_page).has_next
      = decide (page < (listByBlog cs bid page per_page).total_pages) ∧
    (listByBlog cs bid page per_page).has_prev = decide (1 < page) := by
  refine ⟨rfl, ?_, ?_, ?_, rfl, ?_, rfl, rfl⟩
  · intro c hc
    have h1 : c ∈ (sortByCreatedDesc (cs.filter fun c =>
        c.blog_id == bid)) := by
      have := List.mem_of_mem_take hc
      exact List.mem_of_mem_drop this
    have h2 : c ∈ cs.filter fun c => c.blog_id == bid :=
      (sortByCreatedDesc_perm _).mem_iff.mp h1
    have := (List.mem_filter.mp h2).2
    simpa using this
  · exact List.length_take_le _ _
  · have hsub : List.Sublist
        (((sortByCreatedDesc (cs.filter fun c =>
          c.blog_id == bid)).drop ((page - 1) * per_page)).take per_page)
        (sortByCreatedDesc (cs.filter fun c => c.blog_id == bid)) :=
      (List.take_sublist _ _).trans (List.drop_sublist _ _)
    exact List.Pairwise.sublist hsub (sortByCreatedDesc_pairwise _)
  · intro m
    show (cs.filter fun c => c.blog_id == bid).length ≤ m * per_page ↔
      (if 0 < per_page then
        ((cs.filter fun c => c.blog_id == bid).length + per_page - 1)
          / per_page
       else 0) ≤ m
    rw [if_pos hpp]
    rw [Nat.div_le_iff_le_mul_add_pred hpp, Nat.mul_comm m per_page]
    generalize per_page * m = q
    omega

/-- Witness for `list_comments_returns_all_blog_comments` at a single
top-level comment, page 1, 20 per page. -/
theorem list_comments_returns_all_witness :
    (listByBlog [⟨10, "c", 1, 7, none, false, 5⟩] 1 1 20).total
        = ([(⟨10, "c", 1, 7, none, false, 5⟩ : CommentRec)].filter
          fun c => c.blog_id == 1).length ∧
    (∀ c ∈ (listByBlog [⟨10, "c", 1, 7, none, false, 5⟩] 1 1 20).items,
      c.blog_id = 1) ∧
    (listByBlog [⟨10, "c", 1, 7, none, false, 5⟩] 1 1 20).items.length
        ≤ 20 ∧
    (listByBlog [⟨10, "c", 1, 7, none, false, 5⟩] 1 1 20).items.Pairwise
      (fun a b => b.created_at ≤ a.created_at) ∧
    (listByBlog [⟨10, "c", 1, 7, none, false, 5⟩] 1 1 20).items
      = ((sortByCreatedDesc ([(⟨10, "c", 1, 7, none, false, 5⟩ :
          CommentRec)].filter fun c => c.blog_id == 1)).drop
          ((1 - 1) * 20)).take 20 ∧
    (∀ m, (listByBlog [⟨10, "c", 1, 7, none, false, 5⟩] 1 1 20).total
        ≤ m * 20 ↔
      (listByBlog [⟨10, "c", 1, 7, none, false, 5⟩] 1 1 20).total_pages
        ≤ m) ∧
    (listByBlog [⟨10, "c", 1, 7, none, false, 5⟩] 1 1 20).has_next
      = decide (1 < (listByBlog [⟨10, "c", 1, 7, none, false, 5⟩]
          1 1 20).total_pages) ∧
    (listByBlog [⟨10, "c", 1, 7, none, false, 5⟩] 1 1 20).has_prev
      = decide (1 < 1) :=
  list_comments_returns_all_blog_comments
    [⟨10, "c", 1, 7, none, false, 5⟩] 1 1 20 (by decide)

/-! ## Theorems: tag-name normalization (claim C9) -/

/-- C9 counterexample: eleven input names containing the case variants
`Go` and `go` — ten distinct names case-insensitively — are rejected with
the ValidationError cap, because `BlogCreate.validate_tags` deduplicates
case-SENSITIVELY before counting; the claimed "fails exactly when more
than 10 distinct tags remain after case-insensitive dedup" is false. -/
theorem tag_cap_counts_case_variants_separately :
    blogTagsPipeline [] ["Go", "go", "t1", "t2", "t3", "t4", "t5", "t6",
        "t7", "t8", "t9"] = .error .tooMany ∧
    (normalizeTagNames ["Go", "go", "t1", "t2", "t3", "t4", "t5", "t6",
        "t7", "t8", "t9"]).length = 10 := by
  refine ⟨by rfl, by rfl⟩

/-- C9 (amended): the schema validator trims, drops empties, dedups
case-SENSITIVELY and raises the 10-tag ValidationError on that
case-sensitive count; lowercasing and case-insensitive dedup happen
afterwards in the service, whose `TagNotFound` failure lists exactly the
normalized names with no matching catalog tag; and
`["Go", "go", " GO "]` passes the cap and resolves to the single
pre-existing tag `go`. -/
theorem tag_normalization_and_cap (catalog : List TagRec)
    (v names : List String) :
    (validateTagsField v = .error "Maximum 10 tags allowed"
       ↔ 10 < (((v.map pyStrip).filter fun s => !(s == "")).dedup).length) ∧
    (∀ miss, validateAndGetTags catalog names = .error miss →
       miss ≠ [] ∧ ∀ n, (n ∈ miss ↔ n ∈ normalizeTagNames names ∧
         n ∉ (getTagsByNames catalog (normalizeTagNames names)).map
           (fun t => pyLower t.name))) ∧
    blogTagsPipeline [⟨5, "go", "go", 0⟩] ["Go", "go", " GO "]
      = .ok [⟨5, "go", "go", 0⟩] := by
  refine ⟨?_, ?_, by rfl⟩
  · unfold validateTagsField
    by_cases h : 10 < (((v.map pyStrip).filter
        fun s => !(s == "")).dedup).length
    · simp [h]
    · simp [h]
  · intro miss hm
    unfold validateAndGetTags at hm
    split at hm
    · cases hm
    · dsimp only at hm
      split at hm
      · cases hm
      · split at hm
        · cases hm
        · rename_i hne
          injection hm with hm2
          subst hm2
          refine ⟨?_, ?_⟩
          · intro hnil
            rw [hnil] at hne
            simp at hne
          · intro n
            rw [List.mem_filter]
            constructor
            · rintro ⟨h1, h2⟩
              refine ⟨h1, ?_⟩
              simpa using h2
            · rintro ⟨h1, h2⟩
              refine ⟨h1, ?_⟩
              simpa using h2

/-- Witness for `tag_normalization_and_cap`: resolving `["go"]` against an
empty catalog fails listing exactly `go`. -/
theorem tag_normalization_witness :
    ((["go"] : List String) ≠ [] ∧ ∀ n, (n ∈ (["go"] : List String) ↔
      n ∈ normalizeTagNames ["go"] ∧
        n ∉ (getTagsByNames [] (normalizeTagNames ["go"])).map
          (fun t => pyLower t.name))) :=
  (tag_normalization_and_cap [] [] ["go"]).2.1 ["go"] (by rfl)

end FlashPost
